import Mathlib

set_option allowUnsafeReducibility true

attribute [semireducible] Rat.add Rat.mul Rat.div Rat.inv Rat.sub Rat.neg Rat.normalize Rat.blt

/-!
Verification of the scoring / validation pipeline of the multiAIautomation
repository (src/synthesize_markets.py and src/validate_markets.py).

Modelling conventions, chosen to mirror the Python source:
- Python floats are modelled as rationals (ℚ).
- JSON dictionaries read with `dict.get(key, default)` are modelled as
  structures whose fields are `Option`-valued; `getD` supplies the default,
  exactly as `.get` does in the source.
- The Python dict `market_scores` preserves insertion order, so it is
  modelled as an association list `List (String × MarketData)` where a new
  key is appended at the end.
- `s.lower()` is modelled by mapping `Char.toLower` over the characters,
  `s.split()` by splitting on whitespace and dropping empty pieces, and the
  Python substring test `needle in hay` by `containsSub`.
- `list.sort(key=..., reverse=True)` is a stable descending sort; it is
  modelled with `List.insertionSort` under the reflexive descending
  relation, which computes exactly the stable descending sort by key.
-/

/-- Characters of a string, lowercased: models Python `s.lower()` (ASCII data). -/
def lowerChars (s : String) : List Char :=
  s.data.map Char.toLower

/-- Helper for `splitWords`: walks the characters with an accumulator of the
current (reversed) word, splitting at whitespace and dropping empty words,
as Python `str.split()` does. -/
def splitWordsAux : List Char → List Char → List (List Char)
  | [], cur => if cur = [] then [] else [cur.reverse]
  | c :: rest, cur =>
    if c.isWhitespace then
      (if cur = [] then splitWordsAux rest [] else cur.reverse :: splitWordsAux rest [])
    else
      splitWordsAux rest (c :: cur)

/-- Models Python `s.lower().split()`: the lowercased whitespace-separated
words of `s`. -/
def lowerWords (s : String) : List (List Char) :=
  splitWordsAux (lowerChars s) []

/-- Models the Python substring test `needle in hay` on strings (contiguous
substring containment, case sensitive). -/
def containsSub (needle : List Char) : List Char → Bool
  | [] => needle.isPrefixOf []
  | c :: t => needle.isPrefixOf (c :: t) || containsSub needle t

/-- Python `needle in hay` lifted to `String`. -/
def pyContains (hay needle : String) : Bool :=
  containsSub needle.data hay.data

/-- One record of `combined_data['underserved_markets']['markets']`
(src/synthesize_markets.py line 42).  Fields are optional because the code
reads each with `dict.get` and a default. -/
structure UnderservedMarket where
  market : Option String := none
  gap_score : Option ℚ := none
  growth_potential : Option String := none
  barriers : Option (List String) := none
deriving DecidableEq

/-- One record of `combined_data['market_mentions']['market_mentions']`
(src/synthesize_markets.py line 43). -/
structure MentionRecord where
  market : Option String := none
  mention_count : Option ℚ := none
  sentiment_score : Option ℚ := none
deriving DecidableEq

/-- One record of `combined_data['emerging_technologies']['technologies']`
(src/synthesize_markets.py line 47). -/
structure TechRecord where
  technology : Option String := none
  market_readiness : Option ℚ := none
  investment_trend : Option String := none
  adoption_barriers : Option (List String) := none
deriving DecidableEq

/-- One record of `combined_data['website_trends']['trends']`
(src/synthesize_markets.py line 279). -/
structure TrendRecord where
  title : Option String := none
  description : Option String := none
  source : Option String := none
  sectors : Option (List String) := none
  sentiment : Option String := none
deriving DecidableEq

/-- The parts of `combined_data` that `identify_top_underserved_markets` and
`create_market_opportunity_profiles` read (src/synthesize_markets.py lines
42-48 and 277-279).  A `none` field models a missing key, for which the
source substitutes an empty default via `.get`.  (`news_sentiment` is
extracted at line 44 but never used, so it is not modelled.) -/
structure CombinedData where
  underserved_markets : Option (List UnderservedMarket) := none
  market_mentions : Option (List MentionRecord) := none
  growth_sectors : Option (List String) := none
  hot_investment_areas : Option (List String) := none
  emerging_technologies : Option (List TechRecord) := none
  trending_sectors : Option (List String) := none
  website_trends : Option (List TrendRecord) := none
deriving DecidableEq

/-- The per-market score record built by `identify_top_underserved_markets`
(src/synthesize_markets.py lines 60-72): the value stored in the
`market_scores` dictionary under the market name. -/
structure MarketData where
  name : String
  total_score : ℚ
  gap_score : ℚ
  mention_score : ℚ
  sentiment_score : ℚ
  growth_alignment : ℚ
  tech_alignment : ℚ
  sector_alignment : ℚ
  barriers : List String
  growth_potential : String
  sources : List String
deriving DecidableEq

/-- The fresh entry inserted when a market name is first seen
(src/synthesize_markets.py lines 60-72 and 99-111). -/
def emptyScores (name : String) : MarketData :=
  { name := name, total_score := 0, gap_score := 0, mention_score := 0,
    sentiment_score := 0, growth_alignment := 0, tech_alignment := 0,
    sector_alignment := 0, barriers := [], growth_potential := "",
    sources := [] }

/-- The growth-potential bonus added into `total_score`
(src/synthesize_markets.py lines 81-84): High adds 3, Medium adds 1.5. -/
def growthBonus (gp : String) : ℚ :=
  if gp = "High" then 3 else if gp = "Medium" then 3 / 2 else 0

/-- Replaces the value stored under key `k` in the association list by `f`
of it, leaving every other entry unchanged: models an in-place update of
`market_scores[market_name]`. -/
def updateEntry (k : String) (f : MarketData → MarketData)
    (ms : List (String × MarketData)) : List (String × MarketData) :=
  ms.map fun p => if p.1 = k then (p.1, f p.2) else p

/-- Appends a fresh entry when `k` is not yet a key: models the
`if market_name not in market_scores` insertion (src/synthesize_markets.py
lines 59 and 98). -/
def ensureEntry (k : String) (ms : List (String × MarketData)) :
    List (String × MarketData) :=
  if (ms.lookup k).isSome then ms else ms ++ [(k, emptyScores k)]

/-- Processing of one underserved-market record (src/synthesize_markets.py
lines 54-90): records with a missing or empty name are skipped; otherwise
the entry is created if absent, the gap score and growth-potential bonus
are added into `total_score`, and gap score, growth potential and barriers
are (re)assigned. -/
def applyUnderserved (ms : List (String × MarketData)) (m : UnderservedMarket) :
    List (String × MarketData) :=
  let market_name := m.market.getD ""
  if market_name = "" then ms
  else
    updateEntry market_name
      (fun d =>
        let gap := m.gap_score.getD 0
        let gp := m.growth_potential.getD ""
        { d with
          gap_score := gap,
          growth_potential := gp,
          barriers := m.barriers.getD [],
          total_score := d.total_score + gap + growthBonus gp,
          sources := d.sources ++ ["economic_indicators"] })
      (ensureEntry market_name ms)

/-- Processing of one market-mention record (src/synthesize_markets.py
lines 93-127): mention score `min 10 (count / 3)` and sentiment score
`min 5 (sentiment * 5)` are stored and added into `total_score`, and the
`web_scraping` source tag is appended if not already present. -/
def applyMention (ms : List (String × MarketData)) (m : MentionRecord) :
    List (String × MarketData) :=
  let market_name := m.market.getD ""
  if market_name = "" then ms
  else
    updateEntry market_name
      (fun d =>
        let mention_count := m.mention_count.getD 0
        let mention_score := min 10 (mention_count / 3)
        let sentiment := m.sentiment_score.getD 0
        let sentiment_score := min 5 (sentiment * 5)
        { d with
          mention_score := mention_score,
          sentiment_score := sentiment_score,
          total_score := d.total_score + mention_score + sentiment_score,
          sources :=
            if "web_scraping" ∈ d.sources then d.sources
            else d.sources ++ ["web_scraping"] })
      (ensureEntry market_name ms)

/-- Models `any(word in market_words for word in s.lower().split())`
(src/synthesize_markets.py lines 137-138 etc.): some lowercased word of `s`
occurs verbatim among the market words. -/
def anyWordIn (market_words : List (List Char)) (s : String) : Bool :=
  (lowerWords s).any fun w => market_words.contains w

/-- The uncapped investment-area bonus of the alignment pass
(src/synthesize_markets.py lines 146-150): one point per hot investment
area sharing a word with the market name; added into `total_score` only,
never stored as a field. -/
def investmentBonus (hot_investment_areas : List String) (name : String) : ℚ :=
  ((hot_investment_areas.countP fun s => anyWordIn (lowerWords name) s : ℕ) : ℚ)

/-- The alignment pass over one entry (src/synthesize_markets.py lines
130-175): counts word-overlapping growth sectors, investment areas,
emerging technologies and trending sectors; the three stored alignments are
capped at 3, the investment bonus is uncapped and only added into
`total_score`. -/
def applyAlignment (growth_sectors hot_investment_areas : List String)
    (emerging_tech : List TechRecord) (trending_sectors : List String)
    (d : MarketData) : MarketData :=
  let market_words := lowerWords d.name
  let growth_alignment : ℚ :=
    min 3 ((growth_sectors.countP fun s => anyWordIn market_words s : ℕ) : ℚ)
  let invest_bonus : ℚ := investmentBonus hot_investment_areas d.name
  let tech_alignment : ℚ :=
    min 3 ((emerging_tech.countP
      fun t => anyWordIn market_words (t.technology.getD "") : ℕ) : ℚ)
  let sector_alignment : ℚ :=
    min 3 ((trending_sectors.countP fun s => anyWordIn market_words s : ℕ) : ℚ)
  { d with
    growth_alignment := growth_alignment,
    tech_alignment := tech_alignment,
    sector_alignment := sector_alignment,
    total_score := d.total_score + growth_alignment + invest_bonus
      + tech_alignment + sector_alignment }

/-- The `market_scores` dictionary after the three scoring passes of
`identify_top_underserved_markets` (src/synthesize_markets.py lines 51-175),
as an insertion-ordered association list. -/
def marketScores (cd : CombinedData) : List (String × MarketData) :=
  let ms1 := (cd.underserved_markets.getD []).foldl applyUnderserved []
  let ms2 := (cd.market_mentions.getD []).foldl applyMention ms1
  ms2.map fun p =>
    (p.1, applyAlignment (cd.growth_sectors.getD [])
      (cd.hot_investment_areas.getD []) (cd.emerging_technologies.getD [])
      (cd.trending_sectors.getD []) p.2)

/-- `list(market_scores.values())` before sorting (src/synthesize_markets.py
line 178): the candidates in original insertion order. -/
def marketListUnsorted (cd : CombinedData) : List MarketData :=
  (marketScores cd).map Prod.snd

/-- The descending order used by `market_list.sort(key=lambda x:
x['total_score'], reverse=True)`: `a` may come before `b` when `b`'s total
score is at most `a`'s. -/
def byTotalDesc (a b : MarketData) : Prop :=
  b.total_score ≤ a.total_score

instance : DecidableRel byTotalDesc :=
  fun a b => inferInstanceAs (Decidable (b.total_score ≤ a.total_score))

/-- The scoring engine `identify_top_underserved_markets`
(src/synthesize_markets.py lines 33-179, omitting only the file/plot side
effects): `none` models a falsy `combined_data`, for which the source
returns `[]`; otherwise the scored candidates sorted stably by descending
`total_score`. -/
def identify_top_underserved_markets (combined_data : Option CombinedData) :
    List MarketData :=
  match combined_data with
  | none => []
  | some cd => List.insertionSort byTotalDesc (marketListUnsorted cd)

/-- The underserved-market record of the spec's end-to-end example. -/
def ruralUM : UnderservedMarket where
  market := some "Rural Healthcare Technology"
  gap_score := some (87 / 10)
  growth_potential := some "High"
  barriers := some ["Infrastructure"]

/-- The market-mention record of the spec's end-to-end example. -/
def ruralMention : MentionRecord where
  market := some "Rural Healthcare Technology"
  mention_count := some 12
  sentiment_score := some (78 / 100)

/-- The combined input of the spec's end-to-end example: one underserved
market, one mention, empty sector / investment / technology / trend lists. -/
def ruralCD : CombinedData where
  underserved_markets := some [ruralUM]
  market_mentions := some [ruralMention]
  growth_sectors := some []
  hot_investment_areas := some []
  emerging_technologies := some []
  trending_sectors := some []

/-- A related-technology entry of a market opportunity profile
(src/synthesize_markets.py lines 309-314). -/
structure RelatedTech where
  name : String
  market_readiness : ℚ
  investment_trend : String
  adoption_barriers : List String
deriving DecidableEq

/-- A related-trend entry of a market opportunity profile
(src/synthesize_markets.py lines 322-328). -/
structure RelatedTrend where
  title : String
  description : String
  source : String
  sectors : List String
  sentiment : String
deriving DecidableEq

/-- A market opportunity profile (src/synthesize_markets.py lines 290-301). -/
structure OpportunityProfile where
  market_name : String
  opportunity_score : ℚ
  gap_score : ℚ
  growth_potential : String
  barriers_to_entry : List String
  data_sources : List String
  related_technologies : List RelatedTech
  related_trends : List RelatedTrend
  target_demographics : List String
  business_model_suggestions : List String
deriving DecidableEq

/-- The technology-matching test of `create_market_opportunity_profiles`
(src/synthesize_markets.py lines 306-308): some lowercased word of the
market name occurs as a contiguous substring of the lowercased technology
name. -/
def techKeywordTest (market_keywords : List (List Char)) (t : TechRecord) : Bool :=
  market_keywords.any fun kw => containsSub kw (lowerChars (t.technology.getD ""))

/-- The related-technology entry built from a matched technology record
(src/synthesize_markets.py lines 309-314). -/
def relatedTechEntry (t : TechRecord) : RelatedTech :=
  { name := t.technology.getD "", market_readiness := t.market_readiness.getD 0,
    investment_trend := t.investment_trend.getD "",
    adoption_barriers := t.adoption_barriers.getD [] }

/-- The related technologies attached to a profile
(src/synthesize_markets.py lines 306-314). -/
def relatedTechFor (market_keywords : List (List Char)) (techs : List TechRecord) :
    List RelatedTech :=
  (techs.filter fun t => techKeywordTest market_keywords t).map relatedTechEntry

/-- The related trends attached to a profile (src/synthesize_markets.py
lines 317-328): some market keyword occurs in the lowercased title or the
lowercased description. -/
def relatedTrendsFor (market_keywords : List (List Char)) (trends : List TrendRecord) :
    List RelatedTrend :=
  (trends.filter fun tr =>
    market_keywords.any fun kw =>
      containsSub kw (lowerChars (tr.title.getD ""))
        || containsSub kw (lowerChars (tr.description.getD ""))).map fun tr =>
    { title := tr.title.getD "", description := tr.description.getD "",
      source := tr.source.getD "", sectors := tr.sectors.getD [],
      sentiment := tr.sentiment.getD "" }

/-- The demographic-tagging table of `create_market_opportunity_profiles`
(src/synthesize_markets.py lines 331-359): keyword groups checked as
substrings of the lowercased market name, matched groups appended in the
fixed source order. -/
def targetDemographicsFor (market_name : String) : List String :=
  let ln := lowerChars market_name
  (if containsSub "elderly".data ln || containsSub "senior".data ln
      || containsSub "aging".data ln then
    ["Seniors (65+)", "Adult children of seniors", "Healthcare providers"]
  else []) ++
  (if containsSub "rural".data ln then
    ["Rural communities", "Small town residents", "Agricultural sector"]
  else []) ++
  (if containsSub "health".data ln || containsSub "wellness".data ln
      || containsSub "care".data ln then
    ["Health-conscious consumers", "Healthcare providers", "Insurance companies"]
  else []) ++
  (if containsSub "education".data ln || containsSub "learning".data ln
      || containsSub "training".data ln then
    ["Students", "Working professionals", "Educational institutions"]
  else []) ++
  (if containsSub "housing".data ln || containsSub "home".data ln then
    ["First-time homebuyers", "Middle-income families", "Real estate developers"]
  else []) ++
  (if containsSub "childcare".data ln then
    ["Working parents", "Single-parent households", "Employers with parent employees"]
  else [])

/-- The business-model suggestion table of `create_market_opportunity_profiles`
(src/synthesize_markets.py lines 362-385). -/
def businessModelsFor (market_name : String) : List String :=
  let ln := lowerChars market_name
  (if containsSub "technology".data ln || containsSub "tech".data ln then
    ["SaaS subscription model", "Hardware + software solution", "B2B enterprise sales"]
  else []) ++
  (if containsSub "healthcare".data ln || containsSub "health".data ln then
    ["Telehealth platform", "Insurance partnerships", "Direct-to-consumer health services"]
  else []) ++
  (if containsSub "education".data ln || containsSub "learning".data ln then
    ["Freemium learning platform", "B2B institutional sales", "Certification programs"]
  else []) ++
  (if containsSub "sustainable".data ln || containsSub "packaging".data ln then
    ["B2B supplier model", "Circular economy approach", "Subscription refill service"]
  else []) ++
  (if containsSub "rural".data ln then
    ["Hub and spoke distribution", "Mobile service delivery", "Community partnership model"]
  else [])

/-- The profile built for one market (src/synthesize_markets.py lines
290-388). -/
def mkProfile (cd : CombinedData) (m : MarketData) : OpportunityProfile :=
  let market_keywords := lowerWords m.name
  { market_name := m.name,
    opportunity_score := m.total_score,
    gap_score := m.gap_score,
    growth_potential := m.growth_potential,
    barriers_to_entry := m.barriers,
    data_sources := m.sources,
    related_technologies := relatedTechFor market_keywords (cd.emerging_technologies.getD []),
    related_trends := relatedTrendsFor market_keywords (cd.website_trends.getD []),
    target_demographics := targetDemographicsFor m.name,
    business_model_suggestions := businessModelsFor m.name }

/-- The profile enricher `create_market_opportunity_profiles`
(src/synthesize_markets.py lines 265-394, omitting the file side effects):
returns `[]` when either input is falsy, and otherwise the profiles of the
top 10 markets, skipping entries with an empty name. -/
def create_market_opportunity_profiles (market_list : List MarketData)
    (combined_data : Option CombinedData) : List OpportunityProfile :=
  match combined_data with
  | none => []
  | some cd =>
    if market_list = [] then []
    else (market_list.take 10).filterMap fun m =>
      if m.name = "" then none else some (mkProfile cd m)

/-- One record of the validation lookup table built by
`validate_with_databank_indicators` (src/validate_markets.py lines 49-200),
with optional fields because `validate_market_profiles` reads each through
`dict.get` with a default. -/
structure ValidationRecord where
  market_size_usd_billions : Option ℚ := none
  cagr_percent : Option ℚ := none
  validation_score : Option ℚ := none
  supporting_indicators : Option (List String) := none
  validation_sources : Option (List String) := none
deriving DecidableEq

/-- The `validation` sub-dictionary attached to a profile by
`validate_market_profiles` (src/validate_markets.py lines 241-261). -/
structure Validation where
  is_validated : Bool
  validation_score : ℚ
  market_size_usd_billions : ℚ
  cagr_percent : ℚ
  supporting_indicators : List String
  validation_sources : List String
deriving DecidableEq

/-- The default validation block of an unmatched profile
(src/validate_markets.py lines 241-248). -/
def noValidation : Validation :=
  { is_validated := false, validation_score := 0, market_size_usd_billions := 0,
    cagr_percent := 0, supporting_indicators := [], validation_sources := [] }

/-- The validation block copied from a matched record
(src/validate_markets.py lines 254-261). -/
def mkValidation (r : ValidationRecord) : Validation :=
  { is_validated := true,
    validation_score := r.validation_score.getD 0,
    market_size_usd_billions := r.market_size_usd_billions.getD 0,
    cagr_percent := r.cagr_percent.getD 0,
    supporting_indicators := r.supporting_indicators.getD [],
    validation_sources := r.validation_sources.getD [] }

/-- The match test of the validation lookup (src/validate_markets.py line
253): the market name equals the table key, or the key is a contiguous
substring of the market name (case sensitive). -/
def validationMatch (market_name key : String) : Bool :=
  (market_name == key) || pyContains market_name key

/-- The validation lookup loop (src/validate_markets.py lines 250-262):
the table is an insertion-ordered association list; the first record whose
key matches wins, and with no match the all-zero default stands. -/
def findValidation (market_name : String) :
    List (String × ValidationRecord) → Validation
  | [] => noValidation
  | (k, v) :: rest =>
    if validationMatch market_name k then mkValidation v
    else findValidation market_name rest

/-- The fields of an input profile that `validate_market_profiles` reads
(src/validate_markets.py lines 235 and 269), optional because the code uses
`dict.get`. -/
structure VProfile where
  market_name : Option String := none
  opportunity_score : Option ℚ := none
deriving DecidableEq

/-- A validated profile: the copied input profile plus the `validation`
block (src/validate_markets.py lines 238-248). -/
structure ValidatedProfile where
  profile : VProfile
  validation : Validation
deriving DecidableEq

/-- The descending order of the final sort of `validate_market_profiles`
(src/validate_markets.py lines 267-270): descending lexicographic on the
pair (validation score, opportunity score). -/
def byValidationDesc (a b : ValidatedProfile) : Prop :=
  b.validation.validation_score < a.validation.validation_score
    ∨ (b.validation.validation_score = a.validation.validation_score
        ∧ b.profile.opportunity_score.getD 0 ≤ a.profile.opportunity_score.getD 0)

instance : DecidableRel byValidationDesc :=
  fun _ _ => inferInstanceAs (Decidable (_ ∨ _))

/-- The list of validated profiles before the final sort
(src/validate_markets.py lines 232-264). -/
def validatedUnsorted (profiles : List VProfile)
    (validation_data : List (String × ValidationRecord)) : List ValidatedProfile :=
  profiles.map fun p =>
    { profile := p, validation := findValidation (p.market_name.getD "") validation_data }

/-- The validator `validate_market_profiles` (src/validate_markets.py lines
223-276, omitting the file side effects): returns `[]` for an empty profile
list, and otherwise each profile with its validation block, sorted stably by
descending (validation score, opportunity score). -/
def validate_market_profiles (profiles : List VProfile)
    (validation_data : List (String × ValidationRecord)) : List ValidatedProfile :=
  if profiles = [] then []
  else List.insertionSort byValidationDesc (validatedUnsorted profiles validation_data)

/-! Helper lemmas about the association-list operations. -/

theorem lookup_updateEntry (k : String) (f : MarketData → MarketData)
    (ms : List (String × MarketData)) :
    (updateEntry k f ms).lookup k = (ms.lookup k).map f := by
  induction ms with
  | nil => rfl
  | cons p rest ih =>
    cases p with
    | mk a b =>
      by_cases h : a = k
      · subst h
        simp [updateEntry, List.lookup_cons, ih]
      · have hne : (k == a) = false := by
          simp only [beq_eq_false_iff_ne, ne_eq]
          exact fun hk => h hk.symm
        simp only [updateEntry] at ih
        simp [updateEntry, List.lookup_cons, h, hne, ih]

theorem lookup_ensureEntry (k : String) (ms : List (String × MarketData)) :
    ∃ d, (ensureEntry k ms).lookup k = some d := by
  unfold ensureEntry
  by_cases h : (ms.lookup k).isSome
  · rw [if_pos h]
    exact Option.isSome_iff_exists.mp h
  · rw [if_neg h]
    refine ⟨emptyScores k, ?_⟩
    rw [List.lookup_append]
    simp only [Option.not_isSome_iff_eq_none] at h
    simp [h]

/-- C1: on the spec's end-to-end example input (one underserved market
"Rural Healthcare Technology" with gap score 8.7 and High growth potential,
one mention record with 12 mentions and sentiment 0.78, and empty
growth-sector, investment-area, emerging-technology and trending-sector
lists), `identify_top_underserved_markets` produces exactly one candidate,
whose `total_score` is 19.6 = 8.7 (gap) + 3 (High) + 4.0 (mention) + 3.9
(sentiment). -/
theorem c1_end_to_end_example :
    (identify_top_underserved_markets (some ruralCD)).map
        (fun d => (d.name, d.total_score)) = [("Rural Healthcare Technology", 196 / 10)]
      ∧ (196 / 10 : ℚ) = 87 / 10 + 3 + 4 + 39 / 10 := by
  decide

/-- C2: every market-mention record with a nonempty name processed by
`identify_top_underserved_markets` (one `applyMention` step) stores
`mention_score = min 10 (mention_count / 3)` and
`sentiment_score = min 5 (sentiment * 5)` for its market; in particular a
mention count of at least 30 stores mention score exactly 10, and a
sentiment value of at least 1 stores sentiment score exactly 5. -/
theorem c2_mention_sentiment_formulas (ms : List (String × MarketData))
    (m : MentionRecord) (hname : m.market.getD "" ≠ "") :
    ∃ d : MarketData,
      (applyMention ms m).lookup (m.market.getD "") = some d
        ∧ d.mention_score = min 10 (m.mention_count.getD 0 / 3)
        ∧ d.sentiment_score = min 5 (m.sentiment_score.getD 0 * 5)
        ∧ (30 ≤ m.mention_count.getD 0 → d.mention_score = 10)
        ∧ (1 ≤ m.sentiment_score.getD 0 → d.sentiment_score = 5) := by
  obtain ⟨d0, hd0⟩ := lookup_ensureEntry (m.market.getD "") ms
  simp only [applyMention]
  rw [if_neg hname, lookup_updateEntry, hd0]
  refine ⟨_, rfl, rfl, rfl, ?_, ?_⟩
  · intro hc
    simp only
    rw [min_eq_left]
    rw [le_div_iff (by norm_num : (0 : ℚ) < 3)]
    linarith
  · intro hs
    simp only
    rw [min_eq_left]
    linarith

/-- A concrete mention record for the C2 witness: 45 mentions, sentiment 1.2. -/
def c2Mention : MentionRecord :=
  { market := some "Remote Work", mention_count := some 45,
    sentiment_score := some (6 / 5) }

/-- Witness for C2 at the concrete record `c2Mention`. -/
theorem c2_mention_sentiment_formulas_witness :
    (c2Mention.market.getD "" ≠ "")
      ∧ ∃ d : MarketData,
        (applyMention [] c2Mention).lookup (c2Mention.market.getD "") = some d
          ∧ d.mention_score = min 10 (c2Mention.mention_count.getD 0 / 3)
          ∧ d.sentiment_score = min 5 (c2Mention.sentiment_score.getD 0 * 5)
          ∧ (30 ≤ c2Mention.mention_count.getD 0 → d.mention_score = 10)
          ∧ (1 ≤ c2Mention.sentiment_score.getD 0 → d.sentiment_score = 5) :=
  ⟨by decide, c2_mention_sentiment_formulas [] c2Mention (by decide)⟩

theorem lookup_updateEntry_ne (k n : String) (h : k ≠ n) (f : MarketData → MarketData)
    (l : List (String × MarketData)) :
    (updateEntry n f l).lookup k = l.lookup k := by
  induction l with
  | nil => rfl
  | cons p rest ih =>
    simp only [updateEntry] at ih
    cases p with
    | mk a b =>
      by_cases hk : k = a
      · subst hk
        simp [updateEntry, List.lookup_cons, h]
      · have hbeq : (k == a) = false := by simpa using hk
        by_cases ha : a = n
        · subst ha
          simp [updateEntry, List.lookup_cons, hbeq, ih]
        · simp [updateEntry, List.lookup_cons, ha, hbeq, ih]

theorem ensureEntry_of_lookup_none (k : String) (ms : List (String × MarketData))
    (h : ms.lookup k = none) :
    ensureEntry k ms = ms ++ [(k, emptyScores k)] := by
  simp [ensureEntry, h]

theorem lookup_append_single_ne (k n : String) (h : k ≠ n) (v : MarketData)
    (ms : List (String × MarketData)) :
    (ms ++ [(n, v)]).lookup k = ms.lookup k := by
  rw [List.lookup_append]
  have hk : List.lookup k [(n, v)] = none := by
    have : (k == n) = false := by simpa using h
    simp [List.lookup_cons, this]
  rw [hk, Option.or_none]

/-- Invariant of a `market_scores` entry after the underserved-markets pass:
the running total is the gap score plus the growth-potential bonus, and all
mention / sentiment / alignment fields are still zero. -/
def passOneInv (e : String × MarketData) : Prop :=
  e.2.total_score = e.2.gap_score + growthBonus e.2.growth_potential
    ∧ e.2.mention_score = 0 ∧ e.2.sentiment_score = 0
    ∧ e.2.growth_alignment = 0 ∧ e.2.tech_alignment = 0 ∧ e.2.sector_alignment = 0

/-- Invariant of a `market_scores` entry after the market-mentions pass:
the running total is the gap score plus the growth-potential bonus plus the
mention and sentiment scores, and the alignment fields are still zero. -/
def passTwoInv (e : String × MarketData) : Prop :=
  e.2.total_score = e.2.gap_score + growthBonus e.2.growth_potential
      + e.2.mention_score + e.2.sentiment_score
    ∧ e.2.growth_alignment = 0 ∧ e.2.tech_alignment = 0 ∧ e.2.sector_alignment = 0

/-- Pairwise distinctness of the nonempty market names of a record list. -/
def distinctUM (ums : List UnderservedMarket) : Prop :=
  List.Pairwise (fun m1 m2 => m1.market.getD "" ≠ "" → m2.market.getD "" ≠ "" →
    m1.market.getD "" ≠ m2.market.getD "") ums

/-- Pairwise distinctness of the nonempty market names of a mention list. -/
def distinctMentions (mts : List MentionRecord) : Prop :=
  List.Pairwise (fun m1 m2 => m1.market.getD "" ≠ "" → m2.market.getD "" ≠ "" →
    m1.market.getD "" ≠ m2.market.getD "") mts

theorem passOne_foldl (ums : List UnderservedMarket)
    (acc : List (String × MarketData))
    (hacc : ∀ e ∈ acc, passOneInv e)
    (hfresh : ∀ m ∈ ums, m.market.getD "" ≠ "" → acc.lookup (m.market.getD "") = none)
    (hdis : distinctUM ums) :
    ∀ e ∈ ums.foldl applyUnderserved acc, passOneInv e := by
  induction ums generalizing acc with
  | nil => simpa using hacc
  | cons m rest ih =>
    rw [List.foldl_cons]
    rw [distinctUM, List.pairwise_cons] at hdis
    by_cases hn : m.market.getD "" = ""
    · have heq : applyUnderserved acc m = acc := by simp [applyUnderserved, hn]
      rw [heq]
      exact ih acc hacc (fun m' hm' h' => hfresh m' (List.mem_cons_of_mem _ hm') h') hdis.2
    · have hlk : acc.lookup (m.market.getD "") = none :=
        hfresh m (List.mem_cons_self _ _) hn
      have heq : applyUnderserved acc m =
          updateEntry (m.market.getD "")
            (fun d =>
              { d with
                gap_score := m.gap_score.getD 0,
                growth_potential := m.growth_potential.getD "",
                barriers := m.barriers.getD [],
                total_score := d.total_score + m.gap_score.getD 0
                  + growthBonus (m.growth_potential.getD ""),
                sources := d.sources ++ ["economic_indicators"] })
            (acc ++ [(m.market.getD "", emptyScores (m.market.getD ""))]) := by
        rw [applyUnderserved]
        simp only [if_neg hn]
        rw [ensureEntry_of_lookup_none _ _ hlk]
      rw [heq]
      refine ih _ ?_ ?_ hdis.2
      · intro e he
        rw [updateEntry, List.mem_map] at he
        obtain ⟨p, hp, rfl⟩ := he
        rcases List.mem_append.mp hp with hpa | hps
        · have h2 : m.market.getD "" ≠ p.1 :=
            bne_iff_ne.mp ((List.lookup_eq_none_iff.mp hlk) p hpa)
          have hne : ¬p.1 = m.market.getD "" := fun hc => h2 hc.symm
          rw [if_neg hne]
          exact hacc p hpa
        · have hps : p = (m.market.getD "", emptyScores (m.market.getD "")) := by
            simpa using hps
          subst hps
          rw [if_pos rfl]
          unfold passOneInv
          refine ⟨?_, rfl, rfl, rfl, rfl, rfl⟩
          show (0 : ℚ) + m.gap_score.getD 0 + growthBonus (m.growth_potential.getD "")
            = m.gap_score.getD 0 + growthBonus (m.growth_potential.getD "")
          rw [zero_add]
      · intro m' hm' h'
        have hne : m'.market.getD "" ≠ m.market.getD "" :=
          fun hcontra => (hdis.1 m' hm' hn h') hcontra.symm
        rw [lookup_updateEntry_ne _ _ hne, lookup_append_single_ne _ _ hne]
        exact hfresh m' (List.mem_cons_of_mem _ hm') h'

theorem passTwo_foldl (mts : List MentionRecord) (acc : List (String × MarketData))
    (hacc : ∀ e ∈ acc, passTwoInv e)
    (hzero : ∀ mr ∈ mts, ∀ e ∈ acc, e.1 = mr.market.getD "" →
      e.2.mention_score = 0 ∧ e.2.sentiment_score = 0)
    (hdis : distinctMentions mts) :
    ∀ e ∈ mts.foldl applyMention acc, passTwoInv e := by
  induction mts generalizing acc with
  | nil => simpa using hacc
  | cons mr rest ih =>
    rw [List.foldl_cons]
    rw [distinctMentions, List.pairwise_cons] at hdis
    by_cases hn : mr.market.getD "" = ""
    · have heq : applyMention acc mr = acc := by simp [applyMention, hn]
      rw [heq]
      exact ih acc hacc
        (fun mr' hm' e he h => hzero mr' (List.mem_cons_of_mem _ hm') e he h) hdis.2
    · have hens : ∀ p ∈ ensureEntry (mr.market.getD "") acc,
          p ∈ acc ∨ p = (mr.market.getD "", emptyScores (mr.market.getD "")) := by
        intro p hp
        rw [ensureEntry] at hp
        by_cases hl : (acc.lookup (mr.market.getD "")).isSome
        · rw [if_pos hl] at hp
          exact Or.inl hp
        · rw [if_neg hl] at hp
          rcases List.mem_append.mp hp with h1 | h1
          · exact Or.inl h1
          · exact Or.inr (by simpa using h1)
      have heq : applyMention acc mr =
          updateEntry (mr.market.getD "")
            (fun d =>
              { d with
                mention_score := min 10 (mr.mention_count.getD 0 / 3),
                sentiment_score := min 5 (mr.sentiment_score.getD 0 * 5),
                total_score := d.total_score + min 10 (mr.mention_count.getD 0 / 3)
                  + min 5 (mr.sentiment_score.getD 0 * 5),
                sources := if "web_scraping" ∈ d.sources then d.sources
                  else d.sources ++ ["web_scraping"] })
            (ensureEntry (mr.market.getD "") acc) := by
        rw [applyMention]
        simp only [if_neg hn]
      rw [heq]
      refine ih _ ?_ ?_ hdis.2
      · intro e he
        rw [updateEntry, List.mem_map] at he
        obtain ⟨p, hp, rfl⟩ := he
        by_cases hkey : p.1 = mr.market.getD ""
        · rw [if_pos hkey]
          have hz : p.2.mention_score = 0 ∧ p.2.sentiment_score = 0 := by
            rcases hens p hp with h1 | h1
            · exact hzero mr (List.mem_cons_self _ _) p h1 hkey
            · rw [h1]
              exact ⟨rfl, rfl⟩
          have hinv : passTwoInv p := by
            rcases hens p hp with h1 | h1
            · exact hacc p h1
            · rw [h1]
              unfold passTwoInv
              refine ⟨?_, rfl, rfl, rfl⟩
              show (0 : ℚ) = 0 + growthBonus "" + 0 + 0
              simp [growthBonus]
          unfold passTwoInv at hinv ⊢
          obtain ⟨ht, hga, hta, hsa⟩ := hinv
          refine ⟨?_, hga, hta, hsa⟩
          show p.2.total_score + min 10 (mr.mention_count.getD 0 / 3)
              + min 5 (mr.sentiment_score.getD 0 * 5)
            = p.2.gap_score + growthBonus p.2.growth_potential
              + min 10 (mr.mention_count.getD 0 / 3)
              + min 5 (mr.sentiment_score.getD 0 * 5)
          rw [ht, hz.1, hz.2]
          ring
        · rw [if_neg hkey]
          rcases hens p hp with h1 | h1
          · exact hacc p h1
          · exact absurd (by rw [h1]) hkey
      · intro mr' hm' e he hkey'
        rw [updateEntry, List.mem_map] at he
        obtain ⟨p, hp, rfl⟩ := he
        by_cases hkey : p.1 = mr.market.getD ""
        · rw [if_pos hkey] at hkey' ⊢
          have hpn : p.1 = mr'.market.getD "" := hkey'
          exfalso
          by_cases hn' : mr'.market.getD "" = ""
          · exact hn (by rw [← hkey, hpn, hn'])
          · exact hdis.1 mr' hm' hn hn' (by rw [← hkey, hpn])
        · rw [if_neg hkey] at hkey' ⊢
          rcases hens p hp with h1 | h1
          · exact hzero mr' (List.mem_cons_of_mem _ hm') p h1 hkey'
          · exact absurd (by rw [h1]) hkey

instance (l : List UnderservedMarket) : Decidable (distinctUM l) := by
  unfold distinctUM
  infer_instance

instance (l : List MentionRecord) : Decidable (distinctMentions l) := by
  unfold distinctMentions
  infer_instance

theorem marketScores_decomposition (cd : CombinedData)
    (h1 : distinctUM (cd.underserved_markets.getD []))
    (h2 : distinctMentions (cd.market_mentions.getD [])) :
    ∀ p ∈ marketScores cd,
      p.2.total_score = p.2.gap_score + p.2.mention_score + p.2.sentiment_score
        + p.2.growth_alignment + p.2.tech_alignment + p.2.sector_alignment
        + growthBonus p.2.growth_potential
        + investmentBonus (cd.hot_investment_areas.getD []) p.2.name := by
  have hp1 : ∀ e ∈ (cd.underserved_markets.getD []).foldl applyUnderserved [],
      passOneInv e :=
    passOne_foldl _ [] (by simp) (by simp) h1
  have hp2 : ∀ e ∈ (cd.market_mentions.getD []).foldl applyMention
      ((cd.underserved_markets.getD []).foldl applyUnderserved []), passTwoInv e := by
    refine passTwo_foldl _ _ ?_ ?_ h2
    · intro e he
      obtain ⟨ht, hm, hs, hga, hta, hsa⟩ := hp1 e he
      refine ⟨?_, hga, hta, hsa⟩
      rw [ht, hm, hs]
      ring
    · intro mr hmr e he hk
      exact ⟨(hp1 e he).2.1, (hp1 e he).2.2.1⟩
  intro p hp
  simp only [marketScores, List.mem_map] at hp
  obtain ⟨q, hq, rfl⟩ := hp
  obtain ⟨ht, hga, hta, hsa⟩ := hp2 q hq
  simp only [applyAlignment]
  show q.2.total_score
      + min 3 (((cd.growth_sectors.getD []).countP
          fun s => anyWordIn (lowerWords q.2.name) s : ℕ) : ℚ)
      + investmentBonus (cd.hot_investment_areas.getD []) q.2.name
      + min 3 (((cd.emerging_technologies.getD []).countP
          fun t => anyWordIn (lowerWords q.2.name) (t.technology.getD "") : ℕ) : ℚ)
      + min 3 (((cd.trending_sectors.getD []).countP
          fun s => anyWordIn (lowerWords q.2.name) s : ℕ) : ℚ)
    = q.2.gap_score + q.2.mention_score + q.2.sentiment_score
      + min 3 (((cd.growth_sectors.getD []).countP
          fun s => anyWordIn (lowerWords q.2.name) s : ℕ) : ℚ)
      + min 3 (((cd.emerging_technologies.getD []).countP
          fun t => anyWordIn (lowerWords q.2.name) (t.technology.getD "") : ℕ) : ℚ)
      + min 3 (((cd.trending_sectors.getD []).countP
          fun s => anyWordIn (lowerWords q.2.name) s : ℕ) : ℚ)
      + growthBonus q.2.growth_potential
      + investmentBonus (cd.hot_investment_areas.getD []) q.2.name
  rw [ht]
  ring

/-- Counterexample to C3 as stated: with the market name "A" occurring in
two underserved-market records (gap scores 5 and 2), the single produced
candidate has `total_score` 7 but recomputing from the stored sub-fields
plus the growth-potential and investment bonuses gives only 2. -/
def dupUM1 : UnderservedMarket where
  market := some "A"
  gap_score := some 5

/-- Second duplicate-name record for the C3 counterexample. -/
def dupUM2 : UnderservedMarket where
  market := some "A"
  gap_score := some 2

/-- Combined input with a duplicated underserved-market name. -/
def dupCD : CombinedData where
  underserved_markets := some [dupUM1, dupUM2]
  market_mentions := some []
  growth_sectors := some []
  hot_investment_areas := some []
  emerging_technologies := some []
  trending_sectors := some []

/-- C3 fails on duplicate market names: the output candidate stores
`total_score = 7` (both gap contributions) while the recomputation from the
stored sub-fields and the two unstored bonuses yields 2 (only the last
record's gap). -/
theorem c3_counterexample :
    ((identify_top_underserved_markets (some dupCD)).map fun d =>
        (d.total_score,
          d.gap_score + d.mention_score + d.sentiment_score + d.growth_alignment
            + d.tech_alignment + d.sector_alignment + growthBonus d.growth_potential
            + investmentBonus (dupCD.hot_investment_areas.getD []) d.name))
      = [(7, 2)] ∧ ((7 : ℚ) ≠ 2) := by
  decide

/-- C3 (amended): when the nonempty market names of the underserved-market
records are pairwise distinct and likewise for the mention records, every
candidate produced by `identify_top_underserved_markets` has `total_score`
equal to the sum of its six stored component fields plus the
growth-potential bonus plus the uncapped investment-area bonus. -/
theorem c3_amended_total_recomputation (cd : CombinedData)
    (h1 : distinctUM (cd.underserved_markets.getD []))
    (h2 : distinctMentions (cd.market_mentions.getD [])) :
    ∀ d ∈ identify_top_underserved_markets (some cd),
      d.total_score = d.gap_score + d.mention_score + d.sentiment_score
        + d.growth_alignment + d.tech_alignment + d.sector_alignment
        + growthBonus d.growth_potential
        + investmentBonus (cd.hot_investment_areas.getD []) d.name := by
  intro d hd
  simp only [identify_top_underserved_markets] at hd
  rw [List.mem_insertionSort] at hd
  rw [marketListUnsorted, List.mem_map] at hd
  obtain ⟨p, hp, rfl⟩ := hd
  exact marketScores_decomposition cd h1 h2 p hp

/-- The single candidate that the spec's end-to-end example produces. -/
def ruralCandidate : MarketData where
  name := "Rural Healthcare Technology"
  total_score := 98 / 5
  gap_score := 87 / 10
  mention_score := 4
  sentiment_score := 39 / 10
  growth_alignment := 0
  tech_alignment := 0
  sector_alignment := 0
  barriers := ["Infrastructure"]
  growth_potential := "High"
  sources := ["economic_indicators", "web_scraping"]

/-- Witness for the amended C3 at the end-to-end example input. -/
theorem c3_amended_total_recomputation_witness :
    distinctUM (ruralCD.underserved_markets.getD [])
      ∧ distinctMentions (ruralCD.market_mentions.getD [])
      ∧ ruralCandidate ∈ identify_top_underserved_markets (some ruralCD)
      ∧ ruralCandidate.total_score = ruralCandidate.gap_score
          + ruralCandidate.mention_score + ruralCandidate.sentiment_score
          + ruralCandidate.growth_alignment + ruralCandidate.tech_alignment
          + ruralCandidate.sector_alignment
          + growthBonus ruralCandidate.growth_potential
          + investmentBonus (ruralCD.hot_investment_areas.getD []) ruralCandidate.name :=
  ⟨by decide, by decide, by decide,
    c3_amended_total_recomputation ruralCD (by decide) (by decide)
      ruralCandidate (by decide)⟩

/-- Counterexample to C4 as stated: on the end-to-end example input the
single candidate has `total_score` 19.6 but the sum of its six component
score fields is only 16.6 (the High growth-potential bonus of 3 is added to
the total without being stored in any component). -/
theorem c4_counterexample :
    ((identify_top_underserved_markets (some ruralCD)).map fun d =>
        (d.total_score,
          d.gap_score + d.mention_score + d.sentiment_score + d.growth_alignment
            + d.tech_alignment + d.sector_alignment))
      = [(196 / 10, 166 / 10)] ∧ ((196 / 10 : ℚ) ≠ 166 / 10) := by
  decide

/-- C4 (amended): at the time of its last update (the entries of the
`market_scores` mapping after the alignment pass), each candidate's
`total_score` equals the sum of the six component score fields plus the
growth-potential bonus plus the uncapped investment-area bonus, provided
the nonempty market names of each source list are pairwise distinct. -/
theorem c4_amended_components_at_last_update (cd : CombinedData)
    (h1 : distinctUM (cd.underserved_markets.getD []))
    (h2 : distinctMentions (cd.market_mentions.getD [])) :
    ∀ p ∈ marketScores cd,
      p.2.total_score = p.2.gap_score + p.2.mention_score + p.2.sentiment_score
        + p.2.growth_alignment + p.2.tech_alignment + p.2.sector_alignment
        + growthBonus p.2.growth_potential
        + investmentBonus (cd.hot_investment_areas.getD []) p.2.name :=
  marketScores_decomposition cd h1 h2

/-- Witness for the amended C4 at the end-to-end example input. -/
theorem c4_amended_components_at_last_update_witness :
    distinctUM (ruralCD.underserved_markets.getD [])
      ∧ distinctMentions (ruralCD.market_mentions.getD [])
      ∧ ("Rural Healthcare Technology", ruralCandidate) ∈ marketScores ruralCD
      ∧ ("Rural Healthcare Technology", ruralCandidate).2.total_score
        = ruralCandidate.gap_score + ruralCandidate.mention_score
          + ruralCandidate.sentiment_score + ruralCandidate.growth_alignment
          + ruralCandidate.tech_alignment + ruralCandidate.sector_alignment
          + growthBonus ruralCandidate.growth_potential
          + investmentBonus (ruralCD.hot_investment_areas.getD []) ruralCandidate.name :=
  ⟨by decide, by decide, by decide,
    c4_amended_components_at_last_update ruralCD (by decide) (by decide)
      ("Rural Healthcare Technology", ruralCandidate) (by decide)⟩

instance : IsTotal MarketData byTotalDesc :=
  ⟨fun a b => le_total b.total_score a.total_score⟩

instance : IsTrans MarketData byTotalDesc :=
  ⟨fun _ _ _ hab hbc => le_trans hbc hab⟩

/-- C5: the list returned by `identify_top_underserved_markets` is sorted
descending by `total_score`, and any two candidates appearing in the
original insertion order with equal total scores appear in the same
relative order in the output (the sort is stable). -/
theorem c5_sorted_and_stable (cd : CombinedData) :
    List.Sorted byTotalDesc (identify_top_underserved_markets (some cd))
      ∧ ∀ a b : MarketData, a.total_score = b.total_score →
          [a, b].Sublist (marketListUnsorted cd) →
          [a, b].Sublist (identify_top_underserved_markets (some cd)) := by
  constructor
  · show List.Sorted byTotalDesc (List.insertionSort byTotalDesc (marketListUnsorted cd))
    exact List.sorted_insertionSort byTotalDesc _
  · intro a b hab hsub
    show [a, b].Sublist (List.insertionSort byTotalDesc (marketListUnsorted cd))
    exact List.pair_sublist_insertionSort (le_of_eq hab.symm) hsub

/-- First record of the C5 witness input (total score 1). -/
def c5UM1 : UnderservedMarket where
  market := some "A"
  gap_score := some 1

/-- Second record of the C5 witness input (also total score 1). -/
def c5UM2 : UnderservedMarket where
  market := some "B"
  gap_score := some 1

/-- Combined input with two equal-scoring markets, for the C5 witness. -/
def c5CD : CombinedData where
  underserved_markets := some [c5UM1, c5UM2]
  market_mentions := some []
  growth_sectors := some []
  hot_investment_areas := some []
  emerging_technologies := some []
  trending_sectors := some []

/-- The candidate produced for market "A" in the C5 witness input. -/
def c5A : MarketData where
  name := "A"
  total_score := 1
  gap_score := 1
  mention_score := 0
  sentiment_score := 0
  growth_alignment := 0
  tech_alignment := 0
  sector_alignment := 0
  barriers := []
  growth_potential := ""
  sources := ["economic_indicators"]

/-- The candidate produced for market "B" in the C5 witness input. -/
def c5B : MarketData where
  name := "B"
  total_score := 1
  gap_score := 1
  mention_score := 0
  sentiment_score := 0
  growth_alignment := 0
  tech_alignment := 0
  sector_alignment := 0
  barriers := []
  growth_potential := ""
  sources := ["economic_indicators"]

/-- Witness for C5: two equal-scoring candidates keep their insertion order. -/
theorem c5_sorted_and_stable_witness :
    c5A.total_score = c5B.total_score
      ∧ [c5A, c5B].Sublist (marketListUnsorted c5CD)
      ∧ List.Sorted byTotalDesc (identify_top_underserved_markets (some c5CD))
      ∧ [c5A, c5B].Sublist (identify_top_underserved_markets (some c5CD)) :=
  ⟨by decide, by decide, (c5_sorted_and_stable c5CD).1,
    (c5_sorted_and_stable c5CD).2 c5A c5B (by decide) (by decide)⟩

theorem findValidation_eq_find (name : String) (vd : List (String × ValidationRecord)) :
    findValidation name vd
      = ((vd.find? fun kv => validationMatch name kv.1).map fun kv =>
          mkValidation kv.2).getD noValidation := by
  induction vd with
  | nil => rfl
  | cons kv rest ih =>
    cases kv with
    | mk k v =>
      by_cases h : validationMatch name k = true
      · rw [findValidation, if_pos h]
        simp only [List.find?_cons, h]
        rfl
      · have h' : validationMatch name k = false := by simpa using h
        rw [findValidation, if_neg h]
        simp only [List.find?_cons, h']
        exact ih

/-- C6: for every input profile, `validate_market_profiles` attaches the
validation block of the first table record (in iteration order) whose key
matches by equality or by being a substring of the market name
(`List.find?` over the ordered table); a found record sets
`is_validated = true` and copies its size, CAGR and score fields, and no
match leaves `is_validated = false` with the numeric fields zero. -/
theorem c6_validation_lookup (profiles : List VProfile)
    (vd : List (String × ValidationRecord)) (p : VProfile) (hp : p ∈ profiles) :
    ∃ vp ∈ validate_market_profiles profiles vd,
      vp.profile = p
        ∧ ((∃ kv, vd.find? (fun kv => validationMatch (p.market_name.getD "") kv.1)
                = some kv
              ∧ vp.validation.is_validated = true
              ∧ vp.validation.market_size_usd_billions
                  = kv.2.market_size_usd_billions.getD 0
              ∧ vp.validation.cagr_percent = kv.2.cagr_percent.getD 0
              ∧ vp.validation.validation_score = kv.2.validation_score.getD 0)
          ∨ (vd.find? (fun kv => validationMatch (p.market_name.getD "") kv.1) = none
              ∧ vp.validation.is_validated = false
              ∧ vp.validation.market_size_usd_billions = 0
              ∧ vp.validation.cagr_percent = 0
              ∧ vp.validation.validation_score = 0)) := by
  refine ⟨{ profile := p,
            validation := findValidation (p.market_name.getD "") vd }, ?_, rfl, ?_⟩
  · rw [validate_market_profiles]
    have hne : ¬profiles = [] := by
      rintro rfl
      exact (List.not_mem_nil p) hp
    rw [if_neg hne, List.mem_insertionSort, validatedUnsorted, List.mem_map]
    exact ⟨p, hp, rfl⟩
  · cases hf : vd.find? fun kv => validationMatch (p.market_name.getD "") kv.1 with
    | some kv =>
      refine Or.inl ⟨kv, rfl, ?_, ?_, ?_, ?_⟩ <;>
        simp [findValidation_eq_find, hf, mkValidation]
    | none =>
      refine Or.inr ⟨rfl, ?_, ?_, ?_, ?_⟩ <;>
        simp [findValidation_eq_find, hf, noValidation]

/-- The profile of the spec's validation example, used as the C6 witness. -/
def c6Profile : VProfile where
  market_name := some "Rural Healthcare Technology Solutions"
  opportunity_score := some 10

/-- The table record of the spec's validation example. -/
def c6Record : ValidationRecord where
  market_size_usd_billions := some (37 / 2)
  cagr_percent := some (84 / 5)
  validation_score := some (87 / 10)

/-- A one-record validation table whose key is a substring of the C6
witness profile's name. -/
def c6Table : List (String × ValidationRecord) :=
  [("Rural Healthcare Technology", c6Record)]

/-- Witness for C6 at the spec's validation example. -/
theorem c6_validation_lookup_witness :
    c6Profile ∈ [c6Profile]
      ∧ ∃ vp ∈ validate_market_profiles [c6Profile] c6Table,
        vp.profile = c6Profile
          ∧ ((∃ kv, c6Table.find?
                  (fun kv => validationMatch (c6Profile.market_name.getD "") kv.1)
                  = some kv
                ∧ vp.validation.is_validated = true
                ∧ vp.validation.market_size_usd_billions
                    = kv.2.market_size_usd_billions.getD 0
                ∧ vp.validation.cagr_percent = kv.2.cagr_percent.getD 0
                ∧ vp.validation.validation_score = kv.2.validation_score.getD 0)
            ∨ (c6Table.find?
                  (fun kv => validationMatch (c6Profile.market_name.getD "") kv.1) = none
                ∧ vp.validation.is_validated = false
                ∧ vp.validation.market_size_usd_billions = 0
                ∧ vp.validation.cagr_percent = 0
                ∧ vp.validation.validation_score = 0)) :=
  ⟨by decide, c6_validation_lookup [c6Profile] c6Table c6Profile (by decide)⟩

/-- Profile whose market name is a strict substring of a table key, for the
C7 counterexample. -/
def c7Profile : VProfile where
  market_name := some "Rural"

/-- The single table record of the C7 counterexample. -/
def c7Record : ValidationRecord where
  validation_score := some 7

/-- A one-record table whose key strictly contains the C7 profile name. -/
def c7Table : List (String × ValidationRecord) :=
  [("Rural Healthcare", c7Record)]

/-- Counterexample to C7 as stated: the market name "Rural" is a substring
of exactly one reference key ("Rural Healthcare"), yet the lookup leaves
the profile unvalidated, because the code tests whether the KEY is a
substring of the NAME, not the reverse. -/
theorem c7_counterexample :
    pyContains "Rural Healthcare" "Rural" = true
      ∧ (validate_market_profiles [c7Profile] c7Table).map
          (fun vp => vp.validation.is_validated) = [false] := by
  decide

theorem find?_of_filter_singleton {α : Type} (p : α → Bool) (l : List α) (x : α)
    (h : l.filter p = [x]) : l.find? p = some x := by
  induction l with
  | nil => simp at h
  | cons a rest ih =>
    by_cases ha : p a = true
    · rw [List.filter_cons_of_pos ha] at h
      injection h with h1 h2
      subst h1
      simp only [List.find?_cons, ha]
    · have ha' : p a = false := by simpa using ha
      rw [List.filter_cons_of_neg (by simp [ha'])] at h
      simp only [List.find?_cons, ha']
      exact ih h

/-- C7 (amended): the lookup is a case-sensitive exact-or-substring match
in which a reference KEY equal to, or contained as a substring in, the
market name matches; when exactly one table record matches this way, the
profile is validated with that record's copied fields. -/
theorem c7_amended_key_in_name_match (profiles : List VProfile)
    (vd : List (String × ValidationRecord)) (p : VProfile) (hp : p ∈ profiles)
    (k : String) (r : ValidationRecord)
    (huniq : vd.filter (fun kv => validationMatch (p.market_name.getD "") kv.1)
      = [(k, r)]) :
    ∃ vp ∈ validate_market_profiles profiles vd,
      vp.profile = p ∧ vp.validation = mkValidation r := by
  refine ⟨{ profile := p,
            validation := findValidation (p.market_name.getD "") vd }, ?_, rfl, ?_⟩
  · rw [validate_market_profiles]
    have hne : ¬profiles = [] := by
      rintro rfl
      exact (List.not_mem_nil p) hp
    rw [if_neg hne, List.mem_insertionSort, validatedUnsorted, List.mem_map]
    exact ⟨p, hp, rfl⟩
  · show findValidation (p.market_name.getD "") vd = mkValidation r
    rw [findValidation_eq_find, find?_of_filter_singleton _ _ _ huniq]
    rfl

/-- Witness for the amended C7 at the spec's validation example. -/
theorem c7_amended_key_in_name_match_witness :
    c6Profile ∈ [c6Profile]
      ∧ c6Table.filter
          (fun kv => validationMatch (c6Profile.market_name.getD "") kv.1)
          = [("Rural Healthcare Technology", c6Record)]
      ∧ ∃ vp ∈ validate_market_profiles [c6Profile] c6Table,
          vp.profile = c6Profile ∧ vp.validation = mkValidation c6Record :=
  ⟨by decide, by decide,
    c7_amended_key_in_name_match [c6Profile] c6Table c6Profile (by decide)
      "Rural Healthcare Technology" c6Record (by decide)⟩

/-- A market candidate named "Solar Tech" for the C8 counterexample: its
word "tech" is a substring of "blockchain technology" though the two names
share no whole word. -/
def solarMarket : MarketData where
  name := "Solar Tech"
  total_score := 0
  gap_score := 0
  mention_score := 0
  sentiment_score := 0
  growth_alignment := 0
  tech_alignment := 0
  sector_alignment := 0
  barriers := []
  growth_potential := ""
  sources := []

/-- The technology record of the C8 counterexample. -/
def blockchainTech : TechRecord where
  technology := some "Blockchain Technology"

/-- Combined input carrying only the C8 counterexample technology. -/
def c8CD : CombinedData where
  emerging_technologies := some [blockchainTech]

/-- Counterexample to C8 as stated: "Blockchain Technology" is attached to
the "Solar Tech" profile (the word "tech" is a substring of the lowercased
technology name) although the tokenized names share no whole word. -/
theorem c8_counterexample :
    ((create_market_opportunity_profiles [solarMarket] (some c8CD)).map fun p =>
        p.related_technologies.map RelatedTech.name) = [["Blockchain Technology"]]
      ∧ (lowerWords "Solar Tech").inter (lowerWords "Blockchain Technology") = [] := by
  decide

/-- C8 (amended): an emerging-technology entry is attached to a profile's
`related_technologies` exactly when some lowercased whitespace-separated
word of the market name occurs as a contiguous substring of the lowercased
technology name. -/
theorem c8_amended_keyword_substring (market_list : List MarketData)
    (cd : CombinedData) (p : OpportunityProfile)
    (hp : p ∈ create_market_opportunity_profiles market_list (some cd))
    (t : TechRecord) (ht : t ∈ cd.emerging_technologies.getD []) :
    relatedTechEntry t ∈ p.related_technologies
      ↔ (lowerWords p.market_name).any
          (fun kw => containsSub kw (lowerChars (t.technology.getD ""))) = true := by
  simp only [create_market_opportunity_profiles] at hp
  by_cases hml : market_list = []
  · rw [if_pos hml] at hp
    exact absurd hp (List.not_mem_nil p)
  · rw [if_neg hml] at hp
    rw [List.mem_filterMap] at hp
    obtain ⟨m, hm, hpm⟩ := hp
    by_cases hname : m.name = ""
    · rw [if_pos hname] at hpm
      exact absurd hpm (by simp)
    · rw [if_neg hname] at hpm
      have hpeq : p = mkProfile cd m := (Option.some.injEq _ _).mp hpm.symm
      subst hpeq
      show relatedTechEntry t ∈ relatedTechFor (lowerWords m.name)
          (cd.emerging_technologies.getD []) ↔ _
      constructor
      · intro hmem
        rw [relatedTechFor, List.mem_map] at hmem
        obtain ⟨u, hu, huv⟩ := hmem
        rw [List.mem_filter] at hu
        have hn : u.technology.getD "" = t.technology.getD "" :=
          congrArg RelatedTech.name huv
        have := hu.2
        rw [techKeywordTest, hn] at this
        exact this
      · intro htest
        rw [relatedTechFor, List.mem_map]
        exact ⟨t, List.mem_filter.mpr ⟨ht, htest⟩, rfl⟩

/-- The profile built for the C8 counterexample market. -/
def solarProfile : OpportunityProfile :=
  mkProfile c8CD solarMarket

/-- Witness for the amended C8 at the "Solar Tech" example. -/
theorem c8_amended_keyword_substring_witness :
    solarProfile ∈ create_market_opportunity_profiles [solarMarket] (some c8CD)
      ∧ blockchainTech ∈ c8CD.emerging_technologies.getD []
      ∧ (relatedTechEntry blockchainTech ∈ solarProfile.related_technologies
          ↔ (lowerWords solarProfile.market_name).any
              (fun kw => containsSub kw
                (lowerChars (blockchainTech.technology.getD ""))) = true) :=
  ⟨by decide, by decide,
    c8_amended_keyword_substring [solarMarket] c8CD solarProfile (by decide)
      blockchainTech (by decide)⟩

/-- C9: in this embedding `identify_top_underserved_markets` is total
(every optional field is read through `getD`, mirroring the source's
`dict.get` defaults, so missing optional fields never fail); a record whose
market name is missing is skipped unchanged; and a structurally absent
combined input (`none`), or one whose underserved-market and mention
sections are both missing, returns the empty list rather than a partial
result. -/
theorem c9_missing_input_handling :
    identify_top_underserved_markets none = []
      ∧ (∀ ms, applyUnderserved ms {} = ms)
      ∧ (∀ ms, applyMention ms {} = ms)
      ∧ ∀ cd : CombinedData, cd.underserved_markets = none →
          cd.market_mentions = none →
          identify_top_underserved_markets (some cd) = [] := by
  refine ⟨rfl, fun ms => rfl, fun ms => rfl, ?_⟩
  intro cd h1 h2
  simp only [identify_top_underserved_markets, marketListUnsorted, marketScores, h1, h2]
  rfl

/-- A combined input carrying only sector data, for the C9 witness. -/
def c9CD : CombinedData where
  growth_sectors := some ["Healthcare"]

/-- Witness for C9: the empty-input clauses at concrete inputs. -/
theorem c9_missing_input_handling_witness :
    c9CD.underserved_markets = none
      ∧ c9CD.market_mentions = none
      ∧ identify_top_underserved_markets (some c9CD) = []
      ∧ identify_top_underserved_markets none = []
      ∧ applyUnderserved [] {} = []
      ∧ applyMention [] {} = [] :=
  ⟨rfl, rfl, c9_missing_input_handling.2.2.2 c9CD rfl rfl,
    c9_missing_input_handling.1, c9_missing_input_handling.2.1 [],
    c9_missing_input_handling.2.2.1 []⟩

/-- Combined input whose underserved-market list names the same market in
two records, with gap scores `g1`, `g2` and growth potentials `gp1`, `gp2`. -/
def dupGapCD (n : String) (g1 g2 : ℚ) (gp1 gp2 : String) : CombinedData where
  underserved_markets := some
    [{ market := some n, gap_score := some g1, growth_potential := some gp1 },
     { market := some n, gap_score := some g2, growth_potential := some gp2 }]
  market_mentions := some []
  growth_sectors := some []
  hot_investment_areas := some []
  emerging_technologies := some []
  trending_sectors := some []

/-- Combined input whose mention list names the same market in two records,
with mention counts `c1`, `c2` and sentiment values `s1`, `s2`. -/
def dupMentionCD (n : String) (c1 s1 c2 s2 : ℚ) : CombinedData where
  underserved_markets := some []
  market_mentions := some
    [{ market := some n, mention_count := some c1, sentiment_score := some s1 },
     { market := some n, mention_count := some c2, sentiment_score := some s2 }]
  growth_sectors := some []
  hot_investment_areas := some []
  emerging_technologies := some []
  trending_sectors := some []

/-- C10: with a market name duplicated across two underserved-market
records (or two mention records), `identify_top_underserved_markets`
accumulates every record's contribution in `total_score` but keeps only
the last record's value in the corresponding stored component field, so
the stored components no longer account for the total. -/
theorem c10_duplicate_names_overwrite (n : String) (hn : n ≠ "")
    (g1 g2 : ℚ) (gp1 gp2 : String) (c1 s1 c2 s2 : ℚ) :
    identify_top_underserved_markets (some (dupGapCD n g1 g2 gp1 gp2))
      = [{ name := n,
           total_score := g1 + growthBonus gp1 + g2 + growthBonus gp2,
           gap_score := g2, mention_score := 0, sentiment_score := 0,
           growth_alignment := 0, tech_alignment := 0, sector_alignment := 0,
           barriers := [], growth_potential := gp2,
           sources := ["economic_indicators", "economic_indicators"] }]
      ∧ identify_top_underserved_markets (some (dupMentionCD n c1 s1 c2 s2))
        = [{ name := n,
             total_score := min 10 (c1 / 3) + min 5 (s1 * 5)
               + min 10 (c2 / 3) + min 5 (s2 * 5),
             gap_score := 0, mention_score := min 10 (c2 / 3),
             sentiment_score := min 5 (s2 * 5),
             growth_alignment := 0, tech_alignment := 0, sector_alignment := 0,
             barriers := [], growth_potential := "",
             sources := ["web_scraping"] }] := by
  constructor
  · simp [identify_top_underserved_markets, marketListUnsorted, marketScores,
      dupGapCD, applyUnderserved, applyMention, applyAlignment, ensureEntry,
      updateEntry, emptyScores, investmentBonus, hn, List.insertionSort]
  · simp [identify_top_underserved_markets, marketListUnsorted, marketScores,
      dupMentionCD, applyUnderserved, applyMention, applyAlignment, ensureEntry,
      updateEntry, emptyScores, investmentBonus, hn, List.insertionSort]

/-- Witness for C10 at market "A" with gap scores 5 and 2 (High and empty
growth potentials) and mention records (12, 0.78) and (30, 2). -/
theorem c10_duplicate_names_overwrite_witness :
    ("A" : String) ≠ ""
      ∧ (identify_top_underserved_markets (some (dupGapCD "A" 5 2 "High" ""))
          = [{ name := "A",
               total_score := 5 + growthBonus "High" + 2 + growthBonus "",
               gap_score := 2, mention_score := 0, sentiment_score := 0,
               growth_alignment := 0, tech_alignment := 0, sector_alignment := 0,
               barriers := [], growth_potential := "",
               sources := ["economic_indicators", "economic_indicators"] }]
        ∧ identify_top_underserved_markets
            (some (dupMentionCD "A" 12 (78 / 100) 30 2))
          = [{ name := "A",
               total_score := min 10 ((12 : ℚ) / 3) + min 5 ((78 / 100 : ℚ) * 5)
                 + min 10 ((30 : ℚ) / 3) + min 5 ((2 : ℚ) * 5),
               gap_score := 0, mention_score := min 10 ((30 : ℚ) / 3),
               sentiment_score := min 5 ((2 : ℚ) * 5),
               growth_alignment := 0, tech_alignment := 0, sector_alignment := 0,
               barriers := [], growth_potential := "",
               sources := ["web_scraping"] }]) :=
  ⟨by decide,
    c10_duplicate_names_overwrite "A" (by decide) 5 2 "High" "" 12 (78 / 100) 30 2⟩
